import Mathlib

/-!
Verification of the agentic retrieval loop of `src/index.ts`
(`SearchAgent.streamWithMultiStepTools` and its helpers).

The TypeScript source is shallowly embedded: the LLM calls
(`generateText`, `generateObject`, `streamText`) are nondeterministic
network calls, so they are modelled as oracle functions / explicit
outcome values passed in as parameters; every piece of control flow
around them (the while-loop, the stopping conditions, the file map,
query consolidation, the stream consumer, history append) is translated
directly from the source.  JavaScript string truthiness (`if (s)`) is
modelled as `s ≠ ""`; an absent/`undefined` string field is `Option.none`.
-/

namespace AgenticSearch

/-- JavaScript `String.prototype.trim`, written directly over the
character list so that it evaluates inside the kernel (Lean's own
`String.trim` is equivalent but does not reduce): drop whitespace from
both ends. -/
def jsTrim (s : String) : String :=
  ⟨((s.data.dropWhile Char.isWhitespace).reverse.dropWhile Char.isWhitespace).reverse⟩

/-- The policy constant `maxIterations = 5` (index.ts line 128). -/
def maxIterations : Nat := 5

/-- The schema of the sufficiency evaluator's structured output
(index.ts lines 323-326): `isKnowledgeEnough : boolean`,
`nextSearchQuery : string (optional)`. -/
structure EvaluationDecision where
  isKnowledgeEnough : Bool
  nextSearchQuery : Option String
deriving Repr, DecidableEq

/-- The loop-scoped mutable variables of `streamWithMultiStepTools`
(index.ts lines 127-133): `iteration`, `currentSearchQuery`,
`accumulatedKnowledge`. -/
structure LoopState where
  iteration : Nat
  currentSearchQuery : String
  accumulatedKnowledge : List String
deriving Repr, DecidableEq

/-- One result row of the underlying `env.AI.autorag(...).search` call
(index.ts lines 228-234).  `filename` is `none` when the field is
absent and `some ""` when present but empty; both are falsy in
`result.filename || 'Unknown'`. -/
structure RawResult where
  filename : Option String
  file_id : String
deriving Repr, DecidableEq

/-- The fallback `result.filename || 'Unknown'` (index.ts line 230): a
missing or empty filename is replaced by the literal `"Unknown"`. -/
def formatFilename : Option String → String
  | none => "Unknown"
  | some s => if s = "" then "Unknown" else s

/-- One element of `formattedResults` (index.ts lines 228-234).  The
`score` (floating point) and `content` snippet fields are not modelled:
no stated property mentions them and they do not feed back into the
control flow or the file map. -/
structure FormattedResult where
  rank : Nat
  filename : String
  file_id : String
deriving Repr, DecidableEq

/-- The formatting map `searchResults.data.map((result, index) =>
(\x7brank: index + 1, ...\x7d))` (index.ts lines 228-234), written with an
explicit running index. -/
def formatResultsFrom : Nat → List RawResult → List FormattedResult
  | _, [] => []
  | i, r :: rs =>
      ⟨i + 1, formatFilename r.filename, r.file_id⟩ :: formatResultsFrom (i + 1) rs

def formatResults (data : List RawResult) : List FormattedResult :=
  formatResultsFrom 0 data

/-- A `FileReference` value stored in the `allFiles` map
(index.ts lines 239-242). -/
structure FileRef where
  filename : String
  file_id : String
deriving Repr, DecidableEq

/-- JavaScript `Map.prototype.set` on a `Map<string, FileRef>` modelled
as an insertion-ordered association list: setting an existing key
replaces its value in place (the key keeps its original position);
setting a fresh key appends it at the end. -/
def mapSet (m : List (String × FileRef)) (k : String) (v : FileRef) :
    List (String × FileRef) :=
  if m.any (fun p => p.1 == k) then
    m.map (fun p => if p.1 == k then (k, v) else p)
  else
    m ++ [(k, v)]

/-- JavaScript `Map.prototype.get` for the same model. -/
def lookupFile (m : List (String × FileRef)) (k : String) : Option FileRef :=
  (m.find? (fun p => p.1 == k)).map Prod.snd

/-- The file-collection loop of `performSearch` (index.ts lines 237-244):
`for (const result of formattedResults) if (result.filename)
allFiles.set(result.filename, {filename, file_id})`. -/
def collectFiles (m : List (String × FileRef)) (results : List FormattedResult) :
    List (String × FileRef) :=
  results.foldl
    (fun acc r =>
      if r.filename ≠ "" then mapSet acc r.filename ⟨r.filename, r.file_id⟩ else acc)
    m

/-- The `allFiles` map accumulated across every search call of one loop
execution: each successful search with data contributes one batch of
raw results, folded through `collectFiles` (empty-data searches and
failed searches contribute nothing to the map). -/
def collectAllFiles (batches : List (List RawResult)) : List (String × FileRef) :=
  batches.foldl (fun m b => collectFiles m (formatResults b)) []

/-- Proof-side view of one registration step of `collectFiles`,
expressed on the raw result: the rank plays no role and the formatted
filename is never empty, so the truthiness guard always passes
(`collectFiles_formatResultsFrom` proves the two views agree). -/
def registerFile (m : List (String × FileRef)) (r : RawResult) :
    List (String × FileRef) :=
  mapSet m (formatFilename r.filename) ⟨formatFilename r.filename, r.file_id⟩

/-- The shape of the underlying autorag response (index.ts lines 205-216,
250): a list of result rows and an optional echoed `search_query`. -/
structure RawSearchResponse where
  data : List RawResult
  search_query : Option String
deriving Repr, DecidableEq

/-- The structured payload `performSearch` hands back to the model
(index.ts lines 218-226, 246-252, 257-262).  The JavaScript branches
build ad-hoc objects; a field a branch omits is modelled by its falsy
default (`false`, `0`, `none`, `[]`). -/
structure SearchPayload where
  success : Bool
  found : Bool
  count : Nat
  message : Option String
  error : Option String
  search_query : Option String
  results : List FormattedResult
deriving Repr, DecidableEq

/-- The search function `performSearch` (index.ts lines 181-264), with the outcome of the
underlying `env.AI.autorag(selectedRag).search` call passed in
explicitly (`Except.error msg` models the awaited promise rejecting
with an error whose `.message` is `msg`).  The configuration check
`if (!this.state.selectedRag) throw new Error(...)` sits before the
`try`, so it raises (`Except.error`) instead of returning a payload;
every underlying-search failure is caught and converted into a
`success := false` payload. -/
def performSearch (selectedRag : String) (query : String)
    (outcome : Except String RawSearchResponse) : Except String SearchPayload :=
  if selectedRag = "" then
    Except.error "No RAG instance selected. Please select a RAG from the dropdown."
  else
    match outcome with
    | Except.error msg =>
        Except.ok
          { success := false, found := false, count := 0,
            message := some msg, error := some "Failed to search the database",
            search_query := none, results := [] }
    | Except.ok resp =>
        if resp.data.isEmpty then
          Except.ok
            { success := true, found := false, count := 0,
              message := some "No relevant documents found for this query.",
              error := none, search_query := none, results := [] }
        else
          let formatted := formatResults resp.data
          Except.ok
            { success := true, found := true, count := formatted.length,
              message := none, error := none,
              search_query := some (match resp.search_query with
                | some s => if s = "" then query else s
                | none => query),
              results := formatted }

/-- One pass of the `while (true)` agentic loop (index.ts lines 278-360),
iterated with explicit fuel.  The knowledge extractor (`generateText`,
lines 284-308) is the oracle `extract iteration currentQuery knowledge`;
the sufficiency evaluator (`generateObject`, lines 321-342) is the
oracle `eval iteration knowledge`.  Each pass: increment `iteration`;
run the extractor; if its text trims to empty, break without appending
(lines 311-317); otherwise append it, run the evaluator, and break when
`isKnowledgeEnough || iteration >= maxIterations` (line 347); otherwise
the truthiness test `if (decision.object.nextSearchQuery)` at line 353
continues with `currentSearchQuery := nextSearchQuery` only when a next
query is present AND non-empty (an absent field and the empty string
are both falsy), else breaks (lines 353-359). -/
def loopPass (extract : Nat → String → List String → String)
    (eval : Nat → List String → EvaluationDecision) (st : LoopState) :
    LoopState ⊕ LoopState :=
  let iteration := st.iteration + 1
  let newKnowledge := extract iteration st.currentSearchQuery st.accumulatedKnowledge
  if (jsTrim newKnowledge).isEmpty then
    Sum.inl { st with iteration := iteration }
  else
    let knowledge := st.accumulatedKnowledge ++ [newKnowledge]
    let decision := eval iteration knowledge
    if decision.isKnowledgeEnough || decide (iteration ≥ maxIterations) then
      Sum.inl { iteration := iteration, currentSearchQuery := st.currentSearchQuery,
                accumulatedKnowledge := knowledge }
    else
      match decision.nextSearchQuery with
      | some q =>
          if q ≠ "" then
            Sum.inr { iteration := iteration, currentSearchQuery := q,
                      accumulatedKnowledge := knowledge }
          else
            Sum.inl { iteration := iteration, currentSearchQuery := st.currentSearchQuery,
                      accumulatedKnowledge := knowledge }
      | none =>
          Sum.inl { iteration := iteration, currentSearchQuery := st.currentSearchQuery,
                    accumulatedKnowledge := knowledge }

/-- The `while (true)` loop, iterated with explicit fuel: a `Sum.inl`
pass result ends the loop, a `Sum.inr` result re-enters it. -/
def loopIter (extract : Nat → String → List String → String)
    (eval : Nat → List String → EvaluationDecision) :
    Nat → LoopState → LoopState
  | 0, st => st
  | fuel + 1, st =>
      match loopPass extract eval st with
      | Sum.inl final => final
      | Sum.inr next => loopIter extract eval fuel next

/-- The whole agentic loop entered with `iteration = 0`, the (possibly
rewritten) search query, and no accumulated knowledge (index.ts lines
127-133, 278).  Fuel `maxIterations` is exact: every re-entry into the
loop body happens with `iteration < maxIterations`
(see `loopIter_fuel_stable`), so the fuel never runs out before the
source's own stopping conditions fire. -/
def runAgenticLoop (extract : Nat → String → List String → String)
    (eval : Nat → List String → EvaluationDecision)
    (initialQuery : String) : LoopState :=
  loopIter extract eval maxIterations
    { iteration := 0, currentSearchQuery := initialQuery, accumulatedKnowledge := [] }

/-- One entry of the persisted conversation history (`this.messages`);
roles are the literal strings `"user"` / `"assistant"`. -/
structure ConversationTurn where
  role : String
  content : String
deriving Repr, DecidableEq

/-- The computation of `previousUserMessages` (index.ts lines 136-139): all but the last
message, filtered to `role === 'user'`, mapped to their contents. -/
def previousUserMessages (messages : List ConversationTurn) : List String :=
  (messages.dropLast.filter (fun m => m.role == "user")).map (fun m => m.content)

/-- The current utterance `this.messages[this.messages.length - 1].content`
(index.ts line 132). -/
def lastContent (messages : List ConversationTurn) : String :=
  (messages.getLast?.map (fun m => m.content)).getD ""

/-- Outcome of the query-rewriting `generateText` call: the generated
text, or a thrown error. -/
inductive RewriteOutcome where
  | ok (text : String)
  | error
deriving Repr, DecidableEq

/-- Result of query consolidation: the query the loop will start from,
and whether a text-generation call was made for rewriting. -/
structure ConsolidationResult where
  query : String
  rewriteCalled : Bool
deriving Repr, DecidableEq

/-- Query consolidation (index.ts lines 131-176): when at least one
prior user message exists the rewriting model is invoked and its
trimmed text becomes the search query, with a fall back to the original
`userQuery` if the call throws; with no prior user messages no call is
made and the current utterance is used verbatim. -/
def consolidateQuery (messages : List ConversationTurn)
    (rewrite : RewriteOutcome) : ConsolidationResult :=
  let userQuery := lastContent messages
  if (previousUserMessages messages).length > 0 then
    match rewrite with
    | RewriteOutcome.ok t => { query := jsTrim t, rewriteCalled := true }
    | RewriteOutcome.error => { query := userQuery, rewriteCalled := true }
  else
    { query := userQuery, rewriteCalled := false }

/-- The parts of `finalResult.fullStream` the synthesis consumer
distinguishes (index.ts lines 384-403): `text-delta`, `error`, and
everything else (ignored by the `switch`). -/
inductive StreamPart where
  | textDelta (text : String)
  | errorPart (error : String)
  | otherPart
deriving Repr, DecidableEq

/-- Messages the consumer sends to the client connection. -/
inductive ClientEvent where
  | textDeltaEvent (text : String)
  | errorEvent (error : String)
deriving Repr, DecidableEq

/-- One step of the stream consumer (index.ts lines 384-403): a
`text-delta` part is appended to `completeResponse` and forwarded; an
`error` part only emits an error event and the loop keeps consuming;
other part kinds are ignored. -/
def processStreamStep (acc : String × List ClientEvent) (p : StreamPart) :
    String × List ClientEvent :=
  match p with
  | StreamPart.textDelta t => (acc.1 ++ t, acc.2 ++ [ClientEvent.textDeltaEvent t])
  | StreamPart.errorPart e => (acc.1, acc.2 ++ [ClientEvent.errorEvent e])
  | StreamPart.otherPart => acc

/-- The whole `for await (const part of finalResult.fullStream)` loop
(index.ts lines 381-403), starting from `completeResponse = ''`. -/
def processStream (parts : List StreamPart) : String × List ClientEvent :=
  parts.foldl processStreamStep ("", [])

/-- The history append `if (completeResponse.trim())
this.messages.push(...)` with one assistant turn holding the complete
response (index.ts lines 406-412). -/
def appendAssistantResponse (messages : List ConversationTurn)
    (completeResponse : String) : List ConversationTurn :=
  if (jsTrim completeResponse).isEmpty then messages
  else messages ++ [{ role := "assistant", content := completeResponse }]

/-- Specification-side measure for the stream consumer: the in-order
concatenation of the texts of all `text-delta` parts of a stream. -/
def concatDeltas : List StreamPart → String
  | [] => ""
  | StreamPart.textDelta t :: parts => t ++ concatDeltas parts
  | _ :: parts => concatDeltas parts

/-! ### Basic facts about one loop pass -/

/-- Whatever a pass does, the resulting state carries `iteration + 1`. -/
theorem loopPass_iteration (extract : Nat → String → List String → String)
    (eval : Nat → List String → EvaluationDecision) (st : LoopState) :
    (∀ final, loopPass extract eval st = Sum.inl final →
        final.iteration = st.iteration + 1) ∧
    (∀ next, loopPass extract eval st = Sum.inr next →
        next.iteration = st.iteration + 1) := by
  simp only [loopPass]
  constructor
  · intro final h
    split at h
    · cases h; rfl
    · split at h
      · cases h; rfl
      · split at h
        · split at h
          · cases h
          · cases h; rfl
        · cases h; rfl
  · intro next h
    split at h
    · cases h
    · split at h
      · cases h
      · split at h
        · split at h
          · cases h; rfl
          · cases h
        · cases h

/-- The loop only continues (`Sum.inr`) when the incremented iteration
counter is still strictly below `maxIterations`. -/
theorem loopPass_inr_lt (extract : Nat → String → List String → String)
    (eval : Nat → List String → EvaluationDecision) (st next : LoopState)
    (h : loopPass extract eval st = Sum.inr next) :
    st.iteration + 1 < maxIterations ∧ next.iteration = st.iteration + 1 := by
  refine ⟨?_, (loopPass_iteration extract eval st).2 next h⟩
  simp only [loopPass] at h
  split at h
  · cases h
  · rename_i hcond
    split at h
    · cases h
    · rename_i hstop
      simp only [Bool.or_eq_true, decide_eq_true_eq, not_or, not_le] at hstop
      split at h
      · split at h
        · exact hstop.2
        · cases h
      · cases h

/-- Fuel irrelevance: as long as the fuel is at least the number of
iterations still allowed, its exact value does not matter, so
`loopIter … maxIterations` started at `iteration = 0` computes the same
state as the source's unbounded `while (true)` loop. -/
theorem loopIter_fuel_stable (extract : Nat → String → List String → String)
    (eval : Nat → List String → EvaluationDecision) :
    ∀ f₁ f₂ st, st.iteration < maxIterations →
      maxIterations - st.iteration ≤ f₁ → maxIterations - st.iteration ≤ f₂ →
      loopIter extract eval f₁ st = loopIter extract eval f₂ st := by
  intro f₁
  induction f₁ with
  | zero => intro f₂ st hlt h1 h2; omega
  | succ f ih =>
      intro f₂ st hlt h1 h2
      match f₂ with
      | 0 => omega
      | f₂' + 1 =>
          simp only [loopIter]
          cases hpass : loopPass extract eval st with
          | inl final => rfl
          | inr next =>
              obtain ⟨hlt', hit⟩ := loopPass_inr_lt extract eval st next hpass
              exact ih f₂' next (by omega) (by omega) (by omega)

/-- The iteration counter grows by at most the available fuel. -/
theorem loopIter_iteration_le (extract : Nat → String → List String → String)
    (eval : Nat → List String → EvaluationDecision) :
    ∀ fuel st, (loopIter extract eval fuel st).iteration ≤ st.iteration + fuel := by
  intro fuel
  induction fuel with
  | zero => intro st; simp [loopIter]
  | succ f ih =>
      intro st
      cases hpass : loopPass extract eval st with
      | inl final =>
          have := (loopPass_iteration extract eval st).1 final hpass
          simp only [loopIter, hpass]
          omega
      | inr next =>
          have h1 := (loopPass_iteration extract eval st).2 next hpass
          have h2 := ih next
          simp only [loopIter, hpass]
          omega

/-- When the extractor's text does not trim to empty, the evaluator says
the knowledge is not yet enough, it proposes a truthy (non-empty) next
query, and the iteration bound has not been reached, the pass continues
with `currentSearchQuery` replaced by the proposed query and the new
knowledge appended. -/
theorem loopPass_continue (extract : Nat → String → List String → String)
    (eval : Nat → List String → EvaluationDecision) (st : LoopState) (q' : String)
    (hx : (jsTrim (extract (st.iteration + 1) st.currentSearchQuery
        st.accumulatedKnowledge)).isEmpty = false)
    (he : (eval (st.iteration + 1) (st.accumulatedKnowledge ++
        [extract (st.iteration + 1) st.currentSearchQuery
          st.accumulatedKnowledge])).isKnowledgeEnough = false)
    (hq : (eval (st.iteration + 1) (st.accumulatedKnowledge ++
        [extract (st.iteration + 1) st.currentSearchQuery
          st.accumulatedKnowledge])).nextSearchQuery = some q')
    (hq' : q' ≠ "")
    (hlt : st.iteration + 1 < maxIterations) :
    loopPass extract eval st =
      Sum.inr { iteration := st.iteration + 1, currentSearchQuery := q',
                accumulatedKnowledge := st.accumulatedKnowledge ++
                  [extract (st.iteration + 1) st.currentSearchQuery
                    st.accumulatedKnowledge] } := by
  have hge : ¬ (st.iteration + 1 ≥ maxIterations) := by omega
  simp [loopPass, hx, he, hq, hq', hge]

/-- When the extractor's text trims to empty the pass breaks at once:
nothing is appended, the evaluator is not consulted (the result does
not depend on `eval` at all), and only the iteration counter moved. -/
theorem loopPass_empty_knowledge (extract : Nat → String → List String → String)
    (eval : Nat → List String → EvaluationDecision) (st : LoopState)
    (hx : (jsTrim (extract (st.iteration + 1) st.currentSearchQuery
        st.accumulatedKnowledge)).isEmpty = true) :
    loopPass extract eval st = Sum.inl { st with iteration := st.iteration + 1 } := by
  simp [loopPass, hx]

/-- When the evaluator declares the knowledge sufficient, the pass stops
with the new knowledge appended and the query unchanged. -/
theorem loopPass_stop_sufficient (extract : Nat → String → List String → String)
    (eval : Nat → List String → EvaluationDecision) (st : LoopState)
    (hx : (jsTrim (extract (st.iteration + 1) st.currentSearchQuery
        st.accumulatedKnowledge)).isEmpty = false)
    (he : (eval (st.iteration + 1) (st.accumulatedKnowledge ++
        [extract (st.iteration + 1) st.currentSearchQuery
          st.accumulatedKnowledge])).isKnowledgeEnough = true) :
    loopPass extract eval st =
      Sum.inl { iteration := st.iteration + 1,
                currentSearchQuery := st.currentSearchQuery,
                accumulatedKnowledge := st.accumulatedKnowledge ++
                  [extract (st.iteration + 1) st.currentSearchQuery
                    st.accumulatedKnowledge] } := by
  simp [loopPass, hx, he]

/-- When the iteration bound is reached the pass stops regardless of
`isKnowledgeEnough` and of any proposed next query. -/
theorem loopPass_stop_max (extract : Nat → String → List String → String)
    (eval : Nat → List String → EvaluationDecision) (st : LoopState)
    (hx : (jsTrim (extract (st.iteration + 1) st.currentSearchQuery
        st.accumulatedKnowledge)).isEmpty = false)
    (hge : st.iteration + 1 ≥ maxIterations) :
    loopPass extract eval st =
      Sum.inl { iteration := st.iteration + 1,
                currentSearchQuery := st.currentSearchQuery,
                accumulatedKnowledge := st.accumulatedKnowledge ++
                  [extract (st.iteration + 1) st.currentSearchQuery
                    st.accumulatedKnowledge] } := by
  simp [loopPass, hx, hge]

/-- When the evaluation is not sufficient, the bound has not been
reached, but no next query is proposed, the pass stops. -/
theorem loopPass_stop_noNext (extract : Nat → String → List String → String)
    (eval : Nat → List String → EvaluationDecision) (st : LoopState)
    (hx : (jsTrim (extract (st.iteration + 1) st.currentSearchQuery
        st.accumulatedKnowledge)).isEmpty = false)
    (he : (eval (st.iteration + 1) (st.accumulatedKnowledge ++
        [extract (st.iteration + 1) st.currentSearchQuery
          st.accumulatedKnowledge])).isKnowledgeEnough = false)
    (hq : (eval (st.iteration + 1) (st.accumulatedKnowledge ++
        [extract (st.iteration + 1) st.currentSearchQuery
          st.accumulatedKnowledge])).nextSearchQuery = none) :
    loopPass extract eval st =
      Sum.inl { iteration := st.iteration + 1,
                currentSearchQuery := st.currentSearchQuery,
                accumulatedKnowledge := st.accumulatedKnowledge ++
                  [extract (st.iteration + 1) st.currentSearchQuery
                    st.accumulatedKnowledge] } := by
  by_cases hge : st.iteration + 1 ≥ maxIterations
  · simp [loopPass, hx, hge]
  · simp [loopPass, hx, he, hq, hge]

/-- When the evaluation is not sufficient and the proposed next query is
the empty string — falsy under the truthiness test of index.ts line
353 — the pass stops exactly as in the absent-query case. -/
theorem loopPass_stop_emptyNext (extract : Nat → String → List String → String)
    (eval : Nat → List String → EvaluationDecision) (st : LoopState)
    (hx : (jsTrim (extract (st.iteration + 1) st.currentSearchQuery
        st.accumulatedKnowledge)).isEmpty = false)
    (he : (eval (st.iteration + 1) (st.accumulatedKnowledge ++
        [extract (st.iteration + 1) st.currentSearchQuery
          st.accumulatedKnowledge])).isKnowledgeEnough = false)
    (hq : (eval (st.iteration + 1) (st.accumulatedKnowledge ++
        [extract (st.iteration + 1) st.currentSearchQuery
          st.accumulatedKnowledge])).nextSearchQuery = some "") :
    loopPass extract eval st =
      Sum.inl { iteration := st.iteration + 1,
                currentSearchQuery := st.currentSearchQuery,
                accumulatedKnowledge := st.accumulatedKnowledge ++
                  [extract (st.iteration + 1) st.currentSearchQuery
                    st.accumulatedKnowledge] } := by
  by_cases hge : st.iteration + 1 ≥ maxIterations
  · simp [loopPass, hx, hge]
  · simp [loopPass, hx, he, hq, hge]

/-- Main induction for the forced stop: when every extraction trims to
something non-empty and the evaluator never declares sufficiency while
always proposing a truthy (non-empty) next query, the loop runs until
the iteration counter hits `maxIterations` exactly, appending one
knowledge entry per pass. -/
theorem loopIter_never_sufficient
    (extract : Nat → String → List String → String)
    (eval : Nat → List String → EvaluationDecision)
    (hx : ∀ i q ks, (jsTrim (extract i q ks)).isEmpty = false)
    (he : ∀ i ks, (eval i ks).isKnowledgeEnough = false ∧
        ∃ q, (eval i ks).nextSearchQuery = some q ∧ q ≠ "") :
    ∀ fuel st, st.iteration + fuel = maxIterations →
      (loopIter extract eval fuel st).iteration = maxIterations ∧
      (loopIter extract eval fuel st).accumulatedKnowledge.length =
        st.accumulatedKnowledge.length + fuel := by
  intro fuel
  induction fuel with
  | zero =>
      intro st h
      simp only [loopIter]
      omega
  | succ f ih =>
      intro st h
      obtain ⟨hef, q', hq, hq'⟩ := he (st.iteration + 1) (st.accumulatedKnowledge ++
        [extract (st.iteration + 1) st.currentSearchQuery st.accumulatedKnowledge])
      by_cases hge : st.iteration + 1 ≥ maxIterations
      · have hf : f = 0 := by omega
        subst hf
        have hpass := loopPass_stop_max extract eval st
          (hx (st.iteration + 1) st.currentSearchQuery st.accumulatedKnowledge) hge
        simp only [loopIter, hpass]
        refine ⟨by omega, ?_⟩
        show (st.accumulatedKnowledge ++ [_]).length = _
        simp
      · have hpass := loopPass_continue extract eval st q'
          (hx (st.iteration + 1) st.currentSearchQuery st.accumulatedKnowledge)
          hef hq hq' (by omega)
        simp only [loopIter, hpass]
        have hih := ih ⟨st.iteration + 1, q', st.accumulatedKnowledge ++
            [extract (st.iteration + 1) st.currentSearchQuery st.accumulatedKnowledge]⟩
          (by show st.iteration + 1 + f = maxIterations; omega)
        refine ⟨hih.1, ?_⟩
        rw [hih.2]
        show (st.accumulatedKnowledge ++ [_]).length + f = _
        simp only [List.length_append, List.length_singleton]
        omega

/-- Main induction for the sufficiency stop: extractions never trim to
empty, evaluations strictly before iteration `k` say "not enough" and
propose a truthy (non-empty) next query, and the evaluation at
iteration `k` says "enough"; then the loop stops with the counter
exactly at `k`. -/
theorem loopIter_sufficient_at
    (extract : Nat → String → List String → String)
    (eval : Nat → List String → EvaluationDecision) (k : Nat)
    (hx : ∀ i q ks, (jsTrim (extract i q ks)).isEmpty = false)
    (hbefore : ∀ i ks, i < k → (eval i ks).isKnowledgeEnough = false ∧
        ∃ q, (eval i ks).nextSearchQuery = some q ∧ q ≠ "")
    (hat : ∀ ks, (eval k ks).isKnowledgeEnough = true) :
    ∀ fuel st, st.iteration + fuel = maxIterations →
      st.iteration < k → k ≤ maxIterations →
      (loopIter extract eval fuel st).iteration = k := by
  intro fuel
  induction fuel with
  | zero => intro st h hk1 hk2; omega
  | succ f ih =>
      intro st h hk1 hk2
      by_cases hik : st.iteration + 1 = k
      · have hpass := loopPass_stop_sufficient extract eval st
          (hx (st.iteration + 1) st.currentSearchQuery st.accumulatedKnowledge)
          (by rw [hik]; exact hat _)
        simp only [loopIter, hpass]
        exact hik
      · obtain ⟨hef, q', hq, hq'⟩ := hbefore (st.iteration + 1) (st.accumulatedKnowledge ++
          [extract (st.iteration + 1) st.currentSearchQuery st.accumulatedKnowledge])
          (by omega)
        have hpass := loopPass_continue extract eval st q'
          (hx (st.iteration + 1) st.currentSearchQuery st.accumulatedKnowledge)
          hef hq hq' (by omega)
        simp only [loopIter, hpass]
        exact ih ⟨st.iteration + 1, q', st.accumulatedKnowledge ++
            [extract (st.iteration + 1) st.currentSearchQuery st.accumulatedKnowledge]⟩
          (by show st.iteration + 1 + f = maxIterations; omega)
          (by show st.iteration + 1 < k; omega) hk2

/-! ### Claim theorems -/

/-- C1: For every execution of the agentic loop the iteration counter
never exceeds `maxIterations = 5`; and when the evaluator never returns
sufficient and always supplies a `nextSearchQuery` — supplying one
means a truthy value under the test of index.ts line 353, i.e. present
and non-empty — (with the extractor always producing non-empty
knowledge, so the evaluator actually runs every iteration), the loop
performs exactly 5 iterations and then force-stops regardless of
`isKnowledgeEnough`. -/
theorem C1_iteration_bound_and_forced_stop :
    (∀ (extract : Nat → String → List String → String)
        (eval : Nat → List String → EvaluationDecision) (q : String),
        (runAgenticLoop extract eval q).iteration ≤ 5) ∧
    (∀ (extract : Nat → String → List String → String)
        (eval : Nat → List String → EvaluationDecision) (q : String),
        (∀ i q' ks, (jsTrim (extract i q' ks)).isEmpty = false) →
        (∀ i ks, (eval i ks).isKnowledgeEnough = false ∧
            ∃ nq, (eval i ks).nextSearchQuery = some nq ∧ nq ≠ "") →
        (runAgenticLoop extract eval q).iteration = 5) := by
  constructor
  · intro extract eval q
    have h := loopIter_iteration_le extract eval maxIterations
      ⟨0, q, []⟩
    simpa [runAgenticLoop, maxIterations] using h
  · intro extract eval q hx he
    have h := loopIter_never_sufficient extract eval hx he maxIterations
      ⟨0, q, []⟩ (by simp [maxIterations])
    simpa [runAgenticLoop, maxIterations] using h.1

/-- Closed instance of C1: with an extractor that always answers `"k"`
and an evaluator that never says "enough" but always proposes the
non-empty query `"n"`, the loop stops exactly at iteration 5. -/
theorem C1_iteration_bound_and_forced_stop_witness :
    (runAgenticLoop (fun _ _ _ => "k")
      (fun _ _ => ⟨false, some "n"⟩) "q").iteration = 5 :=
  C1_iteration_bound_and_forced_stop.2 (fun _ _ _ => "k")
    (fun _ _ => ⟨false, some "n"⟩) "q"
    (fun _ _ _ => rfl)
    (fun _ _ => ⟨rfl, "n", rfl, by decide⟩)

/-- C2: (a) when the evaluator first returns `isKnowledgeEnough = true`
at iteration `k` with `k < 5` (extractions non-empty throughout,
earlier evaluations proposing a truthy, i.e. non-empty, next query),
the loop performs exactly `k` iterations and stops; (b) when the
decision is not sufficient, the iteration count is below the maximum,
and a next query is present and non-empty (truthy under the test of
index.ts line 353), the next iteration runs with `currentSearchQuery`
set to that query; (c) when the decision is not sufficient and no next
query is present, the loop stops; (d) an empty-string next query is
falsy, so the loop stops exactly as in the absent case. -/
theorem C2_sufficiency_stop_and_next_query_policy :
    (∀ (extract : Nat → String → List String → String)
        (eval : Nat → List String → EvaluationDecision) (k : Nat) (q : String),
        (∀ i q' ks, (jsTrim (extract i q' ks)).isEmpty = false) →
        (∀ i ks, i < k → (eval i ks).isKnowledgeEnough = false ∧
            ∃ nq, (eval i ks).nextSearchQuery = some nq ∧ nq ≠ "") →
        (∀ ks, (eval k ks).isKnowledgeEnough = true) →
        1 ≤ k → k < 5 →
        (runAgenticLoop extract eval q).iteration = k) ∧
    (∀ (extract : Nat → String → List String → String)
        (eval : Nat → List String → EvaluationDecision)
        (st : LoopState) (fuel : Nat) (q' : String),
        (jsTrim (extract (st.iteration + 1) st.currentSearchQuery
            st.accumulatedKnowledge)).isEmpty = false →
        (eval (st.iteration + 1) (st.accumulatedKnowledge ++
            [extract (st.iteration + 1) st.currentSearchQuery
              st.accumulatedKnowledge])).isKnowledgeEnough = false →
        (eval (st.iteration + 1) (st.accumulatedKnowledge ++
            [extract (st.iteration + 1) st.currentSearchQuery
              st.accumulatedKnowledge])).nextSearchQuery = some q' →
        q' ≠ "" →
        st.iteration + 1 < maxIterations →
        loopIter extract eval (fuel + 1) st =
          loopIter extract eval fuel
            ⟨st.iteration + 1, q', st.accumulatedKnowledge ++
              [extract (st.iteration + 1) st.currentSearchQuery
                st.accumulatedKnowledge]⟩) ∧
    (∀ (extract : Nat → String → List String → String)
        (eval : Nat → List String → EvaluationDecision)
        (st : LoopState) (fuel : Nat),
        (jsTrim (extract (st.iteration + 1) st.currentSearchQuery
            st.accumulatedKnowledge)).isEmpty = false →
        (eval (st.iteration + 1) (st.accumulatedKnowledge ++
            [extract (st.iteration + 1) st.currentSearchQuery
              st.accumulatedKnowledge])).isKnowledgeEnough = false →
        (eval (st.iteration + 1) (st.accumulatedKnowledge ++
            [extract (st.iteration + 1) st.currentSearchQuery
              st.accumulatedKnowledge])).nextSearchQuery = none →
        loopIter extract eval (fuel + 1) st =
          ⟨st.iteration + 1, st.currentSearchQuery, st.accumulatedKnowledge ++
            [extract (st.iteration + 1) st.currentSearchQuery
              st.accumulatedKnowledge]⟩) ∧
    (∀ (extract : Nat → String → List String → String)
        (eval : Nat → List String → EvaluationDecision)
        (st : LoopState) (fuel : Nat),
        (jsTrim (extract (st.iteration + 1) st.currentSearchQuery
            st.accumulatedKnowledge)).isEmpty = false →
        (eval (st.iteration + 1) (st.accumulatedKnowledge ++
            [extract (st.iteration + 1) st.currentSearchQuery
              st.accumulatedKnowledge])).isKnowledgeEnough = false →
        (eval (st.iteration + 1) (st.accumulatedKnowledge ++
            [extract (st.iteration + 1) st.currentSearchQuery
              st.accumulatedKnowledge])).nextSearchQuery = some "" →
        loopIter extract eval (fuel + 1) st =
          ⟨st.iteration + 1, st.currentSearchQuery, st.accumulatedKnowledge ++
            [extract (st.iteration + 1) st.currentSearchQuery
              st.accumulatedKnowledge]⟩) := by
  refine ⟨?_, ?_, ?_, ?_⟩
  · intro extract eval k q hx hbefore hat hk1 hk5
    have h := loopIter_sufficient_at extract eval k hx hbefore hat maxIterations
      ⟨0, q, []⟩ (by simp [maxIterations]) (by simpa using hk1)
      (by simp [maxIterations]; omega)
    simpa [runAgenticLoop] using h
  · intro extract eval st fuel q' hx he hq hq' hlt
    have hpass := loopPass_continue extract eval st q' hx he hq hq' hlt
    simp only [loopIter, hpass]
  · intro extract eval st fuel hx he hq
    have hpass := loopPass_stop_noNext extract eval st hx he hq
    simp only [loopIter, hpass]
  · intro extract eval st fuel hx he hq
    have hpass := loopPass_stop_emptyNext extract eval st hx he hq
    simp only [loopIter, hpass]

/-- Closed instance of C2: (a) an evaluator first sufficient at
iteration 2 stops the loop at exactly 2 iterations; (b) an unsatisfied
evaluation proposing the non-empty query `"n2"` makes the next pass run
with that query; (c) an unsatisfied evaluation with no next query stops
the loop; (d) an unsatisfied evaluation proposing the empty string
stops the loop just the same. -/
theorem C2_sufficiency_stop_and_next_query_policy_witness :
    (runAgenticLoop (fun _ _ _ => "k")
        (fun i _ => ⟨i == 2, some "n"⟩) "q").iteration = 2 ∧
    loopIter (fun _ _ _ => "k") (fun _ _ => ⟨false, some "n2"⟩) 1 ⟨0, "q", []⟩ =
      loopIter (fun _ _ _ => "k") (fun _ _ => ⟨false, some "n2"⟩) 0 ⟨1, "n2", ["k"]⟩ ∧
    loopIter (fun _ _ _ => "k") (fun _ _ => ⟨false, none⟩) 1 ⟨0, "q", []⟩ =
      ⟨1, "q", ["k"]⟩ ∧
    loopIter (fun _ _ _ => "k") (fun _ _ => ⟨false, some ""⟩) 1 ⟨0, "q", []⟩ =
      ⟨1, "q", ["k"]⟩ := by
  refine ⟨?_, ?_, ?_, ?_⟩
  · exact C2_sufficiency_stop_and_next_query_policy.1 (fun _ _ _ => "k")
      (fun i _ => ⟨i == 2, some "n"⟩) 2 "q"
      (fun _ _ _ => rfl)
      (fun i _ hi => ⟨by show (i == 2) = false; simp only [beq_eq_false_iff_ne]; omega,
        "n", rfl, by decide⟩)
      (fun _ => rfl) (by omega) (by omega)
  · exact C2_sufficiency_stop_and_next_query_policy.2.1 (fun _ _ _ => "k")
      (fun _ _ => ⟨false, some "n2"⟩) ⟨0, "q", []⟩ 0 "n2"
      (by decide) rfl rfl (by decide) (by decide)
  · exact C2_sufficiency_stop_and_next_query_policy.2.2.1 (fun _ _ _ => "k")
      (fun _ _ => ⟨false, none⟩) ⟨0, "q", []⟩ 0
      (by decide) rfl rfl
  · exact C2_sufficiency_stop_and_next_query_policy.2.2.2 (fun _ _ _ => "k")
      (fun _ _ => ⟨false, some ""⟩) ⟨0, "q", []⟩ 0
      (by decide) rfl rfl

/-- C6: whenever the extractor's output trims to empty, the pass ends
the loop immediately with only the iteration counter advanced: the
empty text is not appended to the knowledge list and the sufficiency
evaluator is skipped entirely — the result is the same for every
evaluator `eval`, which therefore is never consulted. -/
theorem C6_empty_knowledge_skips_evaluation
    (extract : Nat → String → List String → String)
    (eval : Nat → List String → EvaluationDecision)
    (fuel : Nat) (st : LoopState)
    (hx : (jsTrim (extract (st.iteration + 1) st.currentSearchQuery
        st.accumulatedKnowledge)).isEmpty = true) :
    loopIter extract eval (fuel + 1) st = { st with iteration := st.iteration + 1 } := by
  simp only [loopIter, loopPass_empty_knowledge extract eval st hx]

/-- Closed instance of C6: an extractor that answers whitespace on the
first iteration ends the loop at iteration 1 with no knowledge
appended, whatever the evaluator would have said. -/
theorem C6_empty_knowledge_skips_evaluation_witness :
    loopIter (fun _ _ _ => "  ") (fun _ _ => ⟨false, some "n"⟩) 5 ⟨0, "q", []⟩ =
      ⟨1, "q", []⟩ :=
  C6_empty_knowledge_skips_evaluation (fun _ _ _ => "  ")
    (fun _ _ => ⟨false, some "n"⟩) 4 ⟨0, "q", []⟩ (by decide)

/-- C4: with no search target selected (`selectedRag` empty, the falsy
case of `!this.state.selectedRag`), every search invocation raises the
configuration error — for any query and any underlying outcome — and in
particular never hands the model a structured payload; the single
`throw` before the `try` block is not retried and surfaces to the
caller. -/
theorem C4_missing_rag_raises_configuration_error
    (query : String) (outcome : Except String RawSearchResponse) :
    performSearch "" query outcome =
      Except.error "No RAG instance selected. Please select a RAG from the dropdown." ∧
    ∀ payload, performSearch "" query outcome ≠ Except.ok payload := by
  refine ⟨by simp [performSearch], ?_⟩
  intro payload hpayload
  simp [performSearch] at hpayload

/-- C5: with a search target selected, a failing underlying
semantic-search call is caught and converted into a structured
`success:false` payload carrying the error message — the call returns
normally (`Except.ok`), so the failure stays inside the current
iteration instead of aborting the loop. -/
theorem C5_search_failure_returns_structured_payload
    (selectedRag query msg : String) (h : selectedRag ≠ "") :
    performSearch selectedRag query (Except.error msg) =
      Except.ok
        { success := false, found := false, count := 0,
          message := some msg, error := some "Failed to search the database",
          search_query := none, results := [] } := by
  simp [performSearch, h]

/-- Closed instance of C5: with target `"my-rag"` and an underlying
failure `"network down"`, the tool returns the contained
`success:false` payload. -/
theorem C5_search_failure_returns_structured_payload_witness :
    performSearch "my-rag" "q" (Except.error "network down") =
      Except.ok
        { success := false, found := false, count := 0,
          message := some "network down",
          error := some "Failed to search the database",
          search_query := none, results := [] } :=
  C5_search_failure_returns_structured_payload "my-rag" "q" "network down"
    (by decide)

/-- C7: with no prior user utterances in history, consolidation is the
identity — the loop query is the current utterance verbatim and no
rewriting generation call is made (the outcome parameter is irrelevant). -/
theorem C7_consolidation_identity_without_history
    (messages : List ConversationTurn) (rewrite : RewriteOutcome)
    (h : previousUserMessages messages = []) :
    consolidateQuery messages rewrite =
      { query := lastContent messages, rewriteCalled := false } := by
  simp [consolidateQuery, h]

/-- Closed instance of C7: a first-turn history holding only the current
user message consolidates to that message itself without a rewrite
call, even when a rewrite outcome would have been available. -/
theorem C7_consolidation_identity_without_history_witness :
    consolidateQuery [{ role := "user", content := "What is policy X?" }]
        (RewriteOutcome.ok "rewritten") =
      { query := "What is policy X?", rewriteCalled := false } :=
  C7_consolidation_identity_without_history
    [{ role := "user", content := "What is policy X?" }]
    (RewriteOutcome.ok "rewritten") (by decide)

/-- C8: when prior user utterances exist and the rewriting generation
call fails, consolidation falls back to the unmodified current
utterance; the failure is non-fatal — `consolidateQuery` still returns
a query for the loop to proceed with. -/
theorem C8_rewrite_failure_falls_back_to_current_utterance
    (messages : List ConversationTurn)
    (h : previousUserMessages messages ≠ []) :
    consolidateQuery messages RewriteOutcome.error =
      { query := lastContent messages, rewriteCalled := true } := by
  have hlen : 0 < (previousUserMessages messages).length :=
    List.length_pos.2 h
  simp [consolidateQuery, hlen]

/-- Closed instance of C8: with one prior user turn and a failing
rewrite call, the loop query is the current utterance unchanged. -/
theorem C8_rewrite_failure_falls_back_to_current_utterance_witness :
    consolidateQuery
        [{ role := "user", content := "What is policy X?" },
         { role := "user", content := "and clause Y?" }]
        RewriteOutcome.error =
      { query := "and clause Y?", rewriteCalled := true } :=
  C8_rewrite_failure_falls_back_to_current_utterance
    [{ role := "user", content := "What is policy X?" },
     { role := "user", content := "and clause Y?" }]
    (by decide)

/-! ### Stream consumer lemmas -/

/-- The accumulated response after consuming a stream is the initial
accumulator followed by all delta texts, whatever error or other parts
are interleaved. -/
theorem processStream_foldl_fst (parts : List StreamPart) :
    ∀ acc : String × List ClientEvent,
      (parts.foldl processStreamStep acc).1 = acc.1 ++ concatDeltas parts := by
  induction parts with
  | nil => intro acc; simp [concatDeltas]
  | cons p parts ih =>
      intro acc
      cases p with
      | textDelta t =>
          simp only [List.foldl_cons, processStreamStep, concatDeltas, ih,
            String.append_assoc]
      | errorPart e =>
          simp only [List.foldl_cons, processStreamStep, concatDeltas, ih]
      | otherPart =>
          simp only [List.foldl_cons, processStreamStep, concatDeltas, ih]

/-- Events already emitted are never retracted by consuming more parts. -/
theorem processStream_foldl_events_mono (parts : List StreamPart) :
    ∀ (acc : String × List ClientEvent) (x : ClientEvent),
      x ∈ acc.2 → x ∈ (parts.foldl processStreamStep acc).2 := by
  induction parts with
  | nil => intro acc x hx; simpa using hx
  | cons p parts ih =>
      intro acc x hx
      cases p with
      | textDelta t =>
          exact ih _ x (by simp [processStreamStep, hx])
      | errorPart e =>
          exact ih _ x (by simp [processStreamStep, hx])
      | otherPart =>
          exact ih _ x (by simpa [processStreamStep] using hx)

/-- Every error part of the stream produces an error event. -/
theorem processStream_foldl_error_event (parts : List StreamPart) (e : String) :
    ∀ acc : String × List ClientEvent,
      StreamPart.errorPart e ∈ parts →
      ClientEvent.errorEvent e ∈ (parts.foldl processStreamStep acc).2 := by
  induction parts with
  | nil => intro acc h; cases h
  | cons p parts ih =>
      intro acc h
      rcases List.mem_cons.1 h with heq | hmem
      · subst heq
        exact processStream_foldl_events_mono parts _ _
          (by simp [processStreamStep])
      · exact ih _ hmem

/-- C9: (a) the complete response assembled by the synthesis stream
consumer is exactly the in-order concatenation of all text fragments,
regardless of interleaved error parts — text already produced survives
a mid-stream failure; (b) every mid-stream error part makes the
consumer emit an error event; (c) whenever the complete synthesized
text is non-empty after trimming, it is appended to the conversation
history as exactly one new assistant turn holding that text. -/
theorem C9_stream_failure_and_history_append :
    (∀ parts : List StreamPart, (processStream parts).1 = concatDeltas parts) ∧
    (∀ (parts : List StreamPart) (e : String),
        StreamPart.errorPart e ∈ parts →
        ClientEvent.errorEvent e ∈ (processStream parts).2) ∧
    (∀ (messages : List ConversationTurn) (completeResponse : String),
        (jsTrim completeResponse).isEmpty = false →
        appendAssistantResponse messages completeResponse =
          messages ++ [{ role := "assistant", content := completeResponse }]) := by
  refine ⟨?_, ?_, ?_⟩
  · intro parts
    simpa using processStream_foldl_fst parts ("", [])
  · intro parts e h
    exact processStream_foldl_error_event parts e ("", []) h
  · intro messages completeResponse h
    simp [appendAssistantResponse, h]

/-- Closed instance of C9: a stream that fails mid-way still yields the
concatenation of both fragments, emits the error event, and the
non-empty response is appended as one assistant turn. -/
theorem C9_stream_failure_and_history_append_witness :
    (processStream [StreamPart.textDelta "Hello ", StreamPart.errorPart "boom",
        StreamPart.textDelta "world"]).1 =
      concatDeltas [StreamPart.textDelta "Hello ", StreamPart.errorPart "boom",
        StreamPart.textDelta "world"] ∧
    ClientEvent.errorEvent "boom" ∈
      (processStream [StreamPart.textDelta "Hello ", StreamPart.errorPart "boom",
        StreamPart.textDelta "world"]).2 ∧
    appendAssistantResponse [{ role := "user", content := "q" }] "Hello world" =
      [{ role := "user", content := "q" },
       { role := "assistant", content := "Hello world" }] :=
  ⟨C9_stream_failure_and_history_append.1 _,
   C9_stream_failure_and_history_append.2.1 _ "boom" (by decide),
   C9_stream_failure_and_history_append.2.2 [{ role := "user", content := "q" }]
     "Hello world" (by decide)⟩

/-! ### File map lemmas -/

/-- A formatted filename is never the empty string. -/
theorem formatFilename_ne_empty (o : Option String) : formatFilename o ≠ "" := by
  cases o with
  | none => decide
  | some s =>
      by_cases h : s = ""
      · simp [formatFilename, h]
      · simp [formatFilename, h]

/-- Keys of the map after a `set`: unchanged when the key was present,
appended at the end when it was fresh. -/
theorem mapSet_keys (m : List (String × FileRef)) (k : String) (v : FileRef) :
    (mapSet m k v).map Prod.fst =
      if m.any (fun p => p.1 == k) then m.map Prod.fst
      else m.map Prod.fst ++ [k] := by
  unfold mapSet
  by_cases h : m.any (fun p => p.1 == k)
  · simp only [h, if_true, List.map_map]
    refine List.map_congr_left fun p _ => ?_
    by_cases hpk : (p.1 == k) = true
    · simp only [Function.comp, hpk, if_true]
      exact (eq_of_beq hpk).symm
    · simp only [Function.comp, hpk]
      simp [Bool.not_eq_true] at hpk
      simp [hpk]
  · simp [h]

/-- Setting a key makes it a key. -/
theorem mem_keys_mapSet_self (m : List (String × FileRef)) (k : String) (v : FileRef) :
    k ∈ (mapSet m k v).map Prod.fst := by
  rw [mapSet_keys]
  by_cases hany : m.any (fun p => p.1 == k)
  · simp only [hany, if_true]
    rcases List.any_eq_true.1 hany with ⟨p, hp, hpk⟩
    exact List.mem_map.2 ⟨p, hp, eq_of_beq hpk⟩
  · simp [hany]

/-- Setting any key preserves the presence of every existing key. -/
theorem mem_keys_mapSet_mono (m : List (String × FileRef)) (k k' : String)
    (v : FileRef) (h : k ∈ m.map Prod.fst) :
    k ∈ (mapSet m k' v).map Prod.fst := by
  rw [mapSet_keys]
  by_cases hany : m.any (fun p => p.1 == k')
  · simpa [hany] using h
  · simp only [hany, if_false]
    exact List.mem_append_left _ h

/-- A `set` never introduces a duplicate key. -/
theorem mapSet_keys_nodup (m : List (String × FileRef)) (k : String) (v : FileRef)
    (h : (m.map Prod.fst).Nodup) : ((mapSet m k v).map Prod.fst).Nodup := by
  rw [mapSet_keys]
  by_cases hany : m.any (fun p => p.1 == k)
  · simpa [hany] using h
  · have hk : k ∉ m.map Prod.fst := by
      intro hmem
      rcases List.mem_map.1 hmem with ⟨p, hp, hpk⟩
      have : m.any (fun p => p.1 == k) := List.any_eq_true.2 ⟨p, hp, by simp [hpk]⟩
      exact hany this
    simp [hany, List.nodup_append, h, hk]

/-- Looking up inside the value-replacing branch of `mapSet`: the key
that was just replaced maps to the new value. -/
theorem find?_replaceValue (k : String) (v : FileRef) :
    ∀ m : List (String × FileRef), m.any (fun p => p.1 == k) = true →
      (m.map (fun p => if p.1 == k then (k, v) else p)).find?
          (fun p => p.1 == k) = some (k, v) := by
  intro m
  induction m with
  | nil => intro h; simp at h
  | cons p m ih =>
      intro h
      by_cases hpk : (p.1 == k) = true
      · simp only [List.map_cons, hpk, if_true]
        exact List.find?_cons_of_pos _ (by simp)
      · simp only [Bool.not_eq_true] at hpk
        simp only [List.map_cons, hpk, Bool.false_eq_true, if_false]
        rw [List.find?_cons_of_neg _ (by simp [hpk])]
        apply ih
        simpa [List.any_cons, hpk] using h

/-- The value-replacing branch of `mapSet` leaves the lookup of every
other key untouched. -/
theorem find?_replaceValue_other (k k' : String) (v : FileRef)
    (hkk : (k' == k) = false) :
    ∀ m : List (String × FileRef),
      (m.map (fun p => if p.1 == k' then (k', v) else p)).find?
          (fun p => p.1 == k) = m.find? (fun p => p.1 == k) := by
  intro m
  induction m with
  | nil => rfl
  | cons p m ih =>
      by_cases hpk : (p.1 == k') = true
      · have hp : p.1 = k' := eq_of_beq hpk
        simp only [List.map_cons, hpk, if_true]
        rw [List.find?_cons_of_neg _ (by simp [hkk]),
          List.find?_cons_of_neg _ (by simp [hp, hkk])]
        exact ih
      · simp only [Bool.not_eq_true] at hpk
        simp only [List.map_cons, hpk, Bool.false_eq_true, if_false]
        by_cases hpk2 : (p.1 == k) = true
        · simp only [List.find?_cons, hpk2]
        · simp only [Bool.not_eq_true] at hpk2
          simp only [List.find?_cons, hpk2]
          exact ih

/-- After `set k v`, looking up `k` yields `v`. -/
theorem lookupFile_mapSet_self (m : List (String × FileRef)) (k : String)
    (v : FileRef) : lookupFile (mapSet m k v) k = some v := by
  unfold lookupFile mapSet
  by_cases h : m.any (fun p => p.1 == k)
  · simp only [h, if_true]
    rw [find?_replaceValue k v m h]
    rfl
  · simp only [h, Bool.false_eq_true, if_false]
    rw [List.find?_append]
    have hnone : m.find? (fun p => p.1 == k) = none := by
      refine List.find?_eq_none.2 fun x hx => ?_
      simp only [Bool.not_eq_true] at h ⊢
      by_contra hcontra
      simp only [Bool.not_eq_false] at hcontra
      have : m.any (fun p => p.1 == k) = true := List.any_eq_true.2 ⟨x, hx, hcontra⟩
      simp [this] at h
    rw [hnone]
    simp [List.find?_cons_of_pos]

/-- After `set k' v` with `k' ≠ k`, looking up `k` is unchanged. -/
theorem lookupFile_mapSet_other (m : List (String × FileRef)) (k k' : String)
    (v : FileRef) (hkk : (k' == k) = false) :
    lookupFile (mapSet m k' v) k = lookupFile m k := by
  unfold lookupFile mapSet
  by_cases h : m.any (fun p => p.1 == k')
  · simp only [h, if_true]
    rw [find?_replaceValue_other k k' v hkk m]
  · simp only [h, Bool.false_eq_true, if_false]
    rw [List.find?_append]
    have : ([(k', v)].find? (fun p => p.1 == k)) = none := by
      simp [List.find?_cons_of_neg, hkk]
    rw [this]
    simp

/-- The formatted-results collection loop agrees with its raw-level
view: ranks are irrelevant and the filename guard always passes. -/
theorem collectFiles_formatResultsFrom (b : List RawResult) :
    ∀ (i : Nat) (m : List (String × FileRef)),
      collectFiles m (formatResultsFrom i b) = b.foldl registerFile m := by
  induction b with
  | nil => intro i m; rfl
  | cons r b ih =>
      intro i m
      simp only [formatResultsFrom, collectFiles, List.foldl_cons] at ih ⊢
      rw [if_pos (formatFilename_ne_empty r.filename)]
      exact ih (i + 1) (mapSet m (formatFilename r.filename)
        ⟨formatFilename r.filename, r.file_id⟩)

/-- The whole per-loop file map is the raw-level fold over the
concatenation of all search batches. -/
theorem collectAllFiles_eq_registerFold (batches : List (List RawResult)) :
    collectAllFiles batches = batches.flatten.foldl registerFile [] := by
  unfold collectAllFiles
  rw [List.foldl_flatten]
  have hfun : (fun m b => collectFiles m (formatResults b)) =
      fun (m : List (String × FileRef)) (b : List RawResult) =>
        b.foldl registerFile m := by
    funext m b
    exact collectFiles_formatResultsFrom b 0 m
  rw [hfun]

/-- Lookup after folding registrations: the stored entry for a key is
determined by the LAST raw result whose formatted filename equals the
key; keys never touched keep their previous binding. -/
theorem lookupFile_registerFold (k : String) :
    ∀ (b : List RawResult) (m : List (String × FileRef)),
      lookupFile (b.foldl registerFile m) k =
        match b.reverse.find? (fun r => formatFilename r.filename == k) with
        | some r => some ⟨formatFilename r.filename, r.file_id⟩
        | none => lookupFile m k := by
  intro b
  induction b with
  | nil => intro m; rfl
  | cons r b ih =>
      intro m
      rw [List.foldl_cons, ih (registerFile m r), List.reverse_cons,
        List.find?_append]
      cases hfind : b.reverse.find? (fun r => formatFilename r.filename == k) with
      | some r' => rfl
      | none =>
          simp only [Option.none_or]
          by_cases hp : (formatFilename r.filename == k) = true
          · simp only [List.find?_cons, hp]
            unfold registerFile
            rw [← eq_of_beq hp]
            exact lookupFile_mapSet_self m (formatFilename r.filename)
              ⟨formatFilename r.filename, r.file_id⟩
          · simp only [Bool.not_eq_true] at hp
            simp only [List.find?_cons, hp, List.find?_nil]
            unfold registerFile
            exact lookupFile_mapSet_other m k (formatFilename r.filename)
              ⟨formatFilename r.filename, r.file_id⟩ hp

/-- Folding registrations never duplicates keys. -/
theorem registerFold_keys_nodup :
    ∀ (b : List RawResult) (m : List (String × FileRef)),
      (m.map Prod.fst).Nodup → ((b.foldl registerFile m).map Prod.fst).Nodup := by
  intro b
  induction b with
  | nil => intro m h; simpa using h
  | cons r b ih =>
      intro m h
      rw [List.foldl_cons]
      exact ih _ (mapSet_keys_nodup m _ _ h)

/-- Folding registrations preserves the presence of every key. -/
theorem mem_keys_registerFold_mono :
    ∀ (b : List RawResult) (m : List (String × FileRef)) (k : String),
      k ∈ m.map Prod.fst → k ∈ (b.foldl registerFile m).map Prod.fst := by
  intro b
  induction b with
  | nil => intro m k h; simpa using h
  | cons r b ih =>
      intro m k h
      rw [List.foldl_cons]
      exact ih _ k (mem_keys_mapSet_mono m k _ _ h)

/-- Every registered raw result contributes its formatted filename to
the key set. -/
theorem mem_keys_registerFold_of_mem :
    ∀ (b : List RawResult) (m : List (String × FileRef)) (r : RawResult),
      r ∈ b → formatFilename r.filename ∈ (b.foldl registerFile m).map Prod.fst := by
  intro b
  induction b with
  | nil => intro m r h; cases h
  | cons r' b ih =>
      intro m r h
      rcases List.mem_cons.1 h with heq | hmem
      · subst heq
        rw [List.foldl_cons]
        exact mem_keys_registerFold_mono b _ _ (mem_keys_mapSet_self m _ _)
      · rw [List.foldl_cons]
        exact ih _ r hmem

/-- C3 as stated is false on the code: when the filename `"a.pdf"`
occurs twice in one search's results, first with `file_id = "id1"` and
then with `file_id = "id2"`, the accumulated file map holds a single
entry for `"a.pdf"` whose `fileId` is `"id2"` — the LAST occurrence,
not the first: `Map.prototype.set` overwrites the stored value of an
existing key. -/
theorem C3_first_occurrence_fileId_counterexample :
    collectAllFiles [[⟨some "a.pdf", "id1"⟩, ⟨some "a.pdf", "id2"⟩]] =
      [("a.pdf", ⟨"a.pdf", "id2"⟩)] ∧
    lookupFile (collectAllFiles [[⟨some "a.pdf", "id1"⟩, ⟨some "a.pdf", "id2"⟩]])
        "a.pdf" ≠ some ⟨"a.pdf", "id1"⟩ := by
  constructor
  · rfl
  · decide

/-- C3 amended: the file set accumulated across all iterations of one
loop never contains two entries with the same filename; but when the
same filename is returned by more than one search result, the entry
kept carries the `fileId` of the LAST occurrence (the stored value of
an existing key is overwritten on every re-registration). -/
theorem C3_unique_filenames_last_occurrence_wins
    (batches : List (List RawResult)) (k : String) :
    ((collectAllFiles batches).map Prod.fst).Nodup ∧
    lookupFile (collectAllFiles batches) k =
      (batches.flatten.reverse.find?
          (fun r => formatFilename r.filename == k)).map
        (fun r => ⟨formatFilename r.filename, r.file_id⟩) := by
  rw [collectAllFiles_eq_registerFold]
  refine ⟨registerFold_keys_nodup batches.flatten [] (by simp), ?_⟩
  rw [lookupFile_registerFold k batches.flatten []]
  cases hfind : batches.flatten.reverse.find?
      (fun r => formatFilename r.filename == k) with
  | some r => rfl
  | none => rfl

/-- C10: every successful search result with a missing or empty
filename is registered in the loop's file set under the literal
filename `"Unknown"` — it does appear in the emitted key set — and all
such results across the whole loop collapse into at most one
`"Unknown"` entry. -/
theorem C10_missing_filenames_collapse_to_unknown
    (batches : List (List RawResult))
    (h : ∃ b ∈ batches, ∃ r ∈ b, r.filename = none ∨ r.filename = some "") :
    "Unknown" ∈ (collectAllFiles batches).map Prod.fst ∧
    ((collectAllFiles batches).map Prod.fst).count "Unknown" ≤ 1 := by
  obtain ⟨b, hb, r, hr, hfn⟩ := h
  have hflat : r ∈ batches.flatten := List.mem_flatten.2 ⟨b, hb, hr⟩
  have hu : formatFilename r.filename = "Unknown" := by
    rcases hfn with h1 | h1 <;> simp [h1, formatFilename]
  rw [collectAllFiles_eq_registerFold]
  constructor
  · have hmem := mem_keys_registerFold_of_mem batches.flatten [] r hflat
    rwa [hu] at hmem
  · exact List.nodup_iff_count_le_one.1
      (registerFold_keys_nodup batches.flatten [] (by simp)) _

/-- Closed instance of C10: one search batch with one absent filename
and one empty filename produces exactly one `"Unknown"` key. -/
theorem C10_missing_filenames_collapse_to_unknown_witness :
    "Unknown" ∈ (collectAllFiles [[⟨none, "id1"⟩, ⟨some "", "id2"⟩]]).map Prod.fst ∧
    ((collectAllFiles [[⟨none, "id1"⟩, ⟨some "", "id2"⟩]]).map Prod.fst).count
        "Unknown" ≤ 1 :=
  C10_missing_filenames_collapse_to_unknown [[⟨none, "id1"⟩, ⟨some "", "id2"⟩]]
    ⟨[⟨none, "id1"⟩, ⟨some "", "id2"⟩], by decide, ⟨none, "id1"⟩, by decide,
      Or.inl rfl⟩

end AgenticSearch
